import Mathlib

/-!
Verification development for the pgvector cross-collection search and
collection-lifecycle service (`src/pgvector/pgvector_service.py`).

The service talks to PostgreSQL through SQLAlchemy and through the
`langchain_community.vectorstores.pgvector.PGVector` store.  We embed the
database state shallowly: the two tables the service touches
(`langchain_pg_collection`, `langchain_pg_embedding`) become lists of rows,
the library calls the service makes (`PGVector.from_documents`,
`PGVector.delete_collection`, the SQL `SELECT ... ORDER BY ... LIMIT`)
become explicit state-passing functions, and the embedding provider becomes
an explicit function `String → List ℚ`.  pgvector's cosine distance
`1 - dot a b / sqrt (normSq a * normSq b)` is idealised over the reals; the
`ORDER BY` comparison is realised by a computable square-root-free comparator
over ℚ which is proved equivalent to the real comparison.
-/

/-- A LangChain `Document`; the service only ever reads `page_content`. -/
structure Document where
  page_content : String
deriving Repr, DecidableEq

/-- One row of the `langchain_pg_embedding` table, restricted to the columns
the service touches: the owning collection's uuid (modelled as a `Nat`
surrogate for the generated uuid), the stored text (`document`), the nullable
`custom_id`, and the vector column. -/
structure EmbeddingRow where
  collection_id : Nat
  document : String
  custom_id : Option String
  embedding : List ℚ
deriving Repr, DecidableEq

/-- One row of the `langchain_pg_collection` registry table.  The SQLAlchemy
model declares `name` and `cmetadata` on the subclass and inherits the `uuid`
primary key from an abstract base, so `SELECT *` yields the columns in order
`(name, cmetadata, uuid)`: `row[0]` is the collection name. -/
structure CollectionRow where
  name : String
  uuid : Nat
deriving Repr, DecidableEq

/-- The database state: whether the two LangChain tables have been created,
the registry rows, the embedding rows (in insertion order), and a counter
supplying fresh uuids. -/
structure Store where
  tablesExist : Bool
  collections : List CollectionRow
  embeddings : List EmbeddingRow
  nextUuid : Nat
deriving Repr, DecidableEq

/-- Errors surfaced by the database layer that are relevant to the service:
querying a table that does not exist, and a negative SQL `LIMIT`
(PostgreSQL: `LIMIT must not be negative`). -/
inductive SqlError where
  | undefinedTable
  | negativeLimit
deriving Repr, DecidableEq

/-! ## Vector arithmetic (pgvector's `<=>` cosine-distance operator) -/

/-- Dot product of two stored vectors, as pgvector computes it
(componentwise multiply-accumulate over the common length). -/
def dot : List ℚ → List ℚ → ℚ
  | x :: xs, y :: ys => x * y + dot xs ys
  | _, _ => 0

/-- Squared norm of a vector: `dot` with itself. -/
def normSq (a : List ℚ) : ℚ := dot a a

/-- pgvector's cosine distance between stored vectors, idealised over ℝ:
`1 - dot a b / sqrt (normSq a * normSq b)`. -/
noncomputable def cosineDistance (a b : List ℚ) : ℝ :=
  1 - (dot a b : ℝ) / Real.sqrt ((normSq a * normSq b : ℚ) : ℝ)

/-- Computable decision of `x / sqrt s ≤ y / sqrt t` for rational data with
`0 ≤ s` and `0 ≤ t`, by sign analysis and cross-squaring; this is how the SQL
comparisons of the SQL ordering are realised without real square roots. -/
def divSqrtLe (x s y t : ℚ) : Bool :=
  if s = 0 then
    if t = 0 then true else decide (0 ≤ y)
  else if t = 0 then decide (x ≤ 0)
  else if 0 < x then decide (0 < y ∧ x ^ 2 * t ≤ y ^ 2 * s)
  else if 0 ≤ y then true
  else decide (y ^ 2 * s ≤ x ^ 2 * t)

instance {ε α : Type} [DecidableEq ε] [DecidableEq α] : DecidableEq (Except ε α)
  | .ok a, .ok b => decidable_of_iff (a = b) (by simp)
  | .error a, .error b => decidable_of_iff (a = b) (by simp)
  | .ok _, .error _ => isFalse (fun h => Except.noConfusion h)
  | .error _, .ok _ => isFalse (fun h => Except.noConfusion h)

/-! ## The PGVector library operations used by the service

These model `langchain_community.vectorstores.pgvector.PGVector`, whose
behaviour the service invokes through `PGVector.from_documents`,
`PGVector(...)` construction and `PGVector.delete_collection`. -/

/-- Models `CollectionStore.get_or_create`: return the first registry row with
the given name, creating one with a fresh uuid when none exists.  Returns the
updated store and the row's uuid. -/
def getOrCreateCollection (name : String) (s : Store) : Store × Nat :=
  match s.collections.find? (fun c => c.name == name) with
  | some c => (s, c.uuid)
  | none =>
      ({ s with
          collections := s.collections ++ [⟨name, s.nextUuid⟩],
          nextUuid := s.nextUuid + 1 }, s.nextUuid)

/-- Models `PGVector.delete_collection`: look up the first registry row with
the given name; if none, do nothing; otherwise delete that row, cascading to
every embedding row that references its uuid. -/
def deleteCollectionByName (name : String) (s : Store) : Store :=
  match s.collections.find? (fun c => c.name == name) with
  | none => s
  | some c =>
      { s with
          collections := s.collections.filter (fun c2 => c2.uuid != c.uuid),
          embeddings := s.embeddings.filter (fun e => e.collection_id != c.uuid) }

/-- Models `PGVector.__post_init__` (run by the constructor): create the two
tables if absent, pre-delete the collection when asked, then get-or-create the
registry row.  Returns the store and the collection's uuid. -/
def pgvectorSetup (name : String) (preDelete : Bool) (s : Store) : Store × Nat :=
  let s1 : Store := { s with tablesExist := true }
  getOrCreateCollection name (if preDelete then deleteCollectionByName name s1 else s1)

/-- Models `PGVector.add_embeddings`: embed every document and append one
embedding row per document, preserving input order (`custom_id` is a
generated uuid the service never reads; modelled as `none`). -/
def addEmbeddings (embed : String → List ℚ) (docs : List Document) (uuid : Nat)
    (s : Store) : Store :=
  { s with
      embeddings := s.embeddings ++
        docs.map (fun d => ⟨uuid, d.page_content, none, embed d.page_content⟩) }

/-- Models `PGVector.from_documents(embedding, documents, collection_name,
connection_string, pre_delete_collection)`: construct the store (creating
tables and the registry row, pre-deleting when asked), then add one embedding
row per document. -/
def fromDocuments (embed : String → List ℚ) (docs : List Document)
    (collection_name : String) (pre_delete_collection : Bool) (s : Store) : Store :=
  let p := pgvectorSetup collection_name pre_delete_collection s
  addEmbeddings embed docs p.2 p.1

/-! ## The service (`PgvectorService`) -/

/-- Models `PgvectorService.get_vector`: embed a text with the configured
embedding provider. -/
def get_vector (embed : String → List ℚ) (text : String) : List ℚ := embed text

/-- The raw query `SELECT * FROM public.langchain_pg_collection`: errors when
the table has never been created. -/
def selectCollections (s : Store) : Except SqlError (List CollectionRow) :=
  if s.tablesExist then .ok s.collections else .error .undefinedTable

/-- Models `PgvectorService.get_collections`: run the `SELECT` and read
`row[0]` (the `name` column) from every row; the bare `except` turns any
database error into the empty list. -/
def get_collections (s : Store) : List String :=
  match selectCollections s with
  | .ok rows => rows.map (fun r => r.name)
  | .error _ => []

/-- Models `PgvectorService.update_pgvector_collection`: delegate to
`PGVector.from_documents` with `pre_delete_collection := overwrite`. -/
def update_pgvector_collection (embed : String → List ℚ) (docs : List Document)
    (collection_name : String) (overwrite : Bool) (s : Store) : Store :=
  fromDocuments embed docs collection_name overwrite s

/-- Models `PgvectorService.update_collection`: read the current collection
names; when `docs` is not `None`, overwrite exactly when the name is already
present. -/
def update_collection (embed : String → List ℚ) (docs : Option (List Document))
    (collection_name : String) (s : Store) : Store :=
  let collections := get_collections s
  match docs with
  | none => s
  | some ds =>
      update_pgvector_collection embed ds collection_name
        (collections.contains collection_name) s

/-- Models `PgvectorService.delete_collection`: construct a `PGVector` for the
name (which creates tables and get-or-creates the registry row) and then call
the library's `delete_collection`. -/
def delete_collection (collection_name : String) (s : Store) : Store :=
  let p := pgvectorSetup collection_name false s
  deleteCollectionByName collection_name p.1

/-- Comparator realising the SQL `ORDER BY cosine_distance ASC` between two
embedding rows for a fixed query vector: row `r1` sorts no later than `r2`
exactly when its cosine similarity to the query is no smaller, decided by
`divSqrtLe` on the rational data. -/
def cosineDistLe (qv : List ℚ) (r1 r2 : EmbeddingRow) : Bool :=
  divSqrtLe (dot qv r2.embedding) (normSq qv * normSq r2.embedding)
    (dot qv r1.embedding) (normSq qv * normSq r1.embedding)

/-- Models the SQL query issued by the search: select all embedding rows
(across every collection), order by cosine distance ascending (stably, by a
deterministic sort), `LIMIT k`.  PostgreSQL rejects a negative `LIMIT`. -/
def sqlTopK (qv : List ℚ) (k : Int) (s : Store) : Except SqlError (List EmbeddingRow) :=
  if k < 0 then .error .negativeLimit
  else .ok ((s.embeddings.insertionSort (fun r1 r2 => cosineDistLe qv r1 r2 = true)).take k.toNat)

/-- Models `PgvectorService.custom_similarity_search_with_scores`: embed the
query, run the ordered limited select, and convert each returned row to a
`(Document, 1 - distance)` pair. -/
noncomputable def custom_similarity_search_with_scores (embed : String → List ℚ)
    (query : String) (k : Int) (s : Store) :
    Except SqlError (List (Document × ℝ)) :=
  let query_vector := get_vector embed query
  (sqlTopK query_vector k s).map
    (fun results =>
      results.map (fun r => (⟨r.document⟩, 1 - cosineDistance query_vector r.embedding)))

/-- The embedding rows of the collection registered under `name`: what a
search restricted to that collection can see.  Resolves the name through the
registry exactly as the library's `get_collection` does (first match). -/
def rowsOfCollection (name : String) (s : Store) : List EmbeddingRow :=
  match s.collections.find? (fun c => c.name == name) with
  | none => []
  | some c => s.embeddings.filter (fun e => e.collection_id == c.uuid)

/-- Well-formedness of a database state, as maintained by PostgreSQL and the
library: registry names and uuids are unique, every uuid in use is below the
fresh-uuid counter, every embedding row references a registered collection,
and a store whose tables were never created holds no rows. -/
def WF (s : Store) : Prop :=
  (s.collections.map (fun c => c.name)).Nodup ∧
  (s.collections.map (fun c => c.uuid)).Nodup ∧
  (∀ c ∈ s.collections, c.uuid < s.nextUuid) ∧
  (∀ e ∈ s.embeddings, ∃ c ∈ s.collections, e.collection_id = c.uuid) ∧
  (s.tablesExist = false → s.collections = [] ∧ s.embeddings = [])

instance (s : Store) : Decidable (WF s) := by
  unfold WF
  infer_instance

/-! ## Basic facts about the vector arithmetic -/

theorem dot_self_nonneg (a : List ℚ) : 0 ≤ dot a a := by
  induction a with
  | nil => simp [dot]
  | cons x xs ih =>
      have hx : 0 ≤ x * x := mul_self_nonneg x
      simpa [dot] using add_nonneg hx ih

theorem normSq_nonneg (a : List ℚ) : 0 ≤ normSq a := dot_self_nonneg a

theorem sqrt_sq_mul (a b : ℝ) (ha : 0 ≤ a) :
    Real.sqrt (a ^ 2 * b) = a * Real.sqrt b := by
  rw [Real.sqrt_mul (sq_nonneg a), Real.sqrt_sq ha]

/-- The square-root-free comparator decides exactly the real comparison
`x / sqrt s ≤ y / sqrt t`, for nonnegative `s`, `t`. -/
theorem divSqrtLe_iff (x s y t : ℚ) (hs : 0 ≤ s) (ht : 0 ≤ t) :
    divSqrtLe x s y t = true ↔
      (x : ℝ) / Real.sqrt (s : ℝ) ≤ (y : ℝ) / Real.sqrt (t : ℝ) := by
  unfold divSqrtLe
  rcases eq_or_lt_of_le hs with hs0 | hs0
  · rw [if_pos hs0.symm]
    have hsR : Real.sqrt (s : ℝ) = 0 := by
      rw [← hs0]; simp [Real.sqrt_zero]
    rcases eq_or_lt_of_le ht with ht0 | ht0
    · rw [if_pos ht0.symm]
      have htR : Real.sqrt (t : ℝ) = 0 := by
        rw [← ht0]; simp [Real.sqrt_zero]
      simp [hsR, htR]
    · have htne : t ≠ 0 := (ne_of_gt ht0)
      rw [if_neg htne]
      have htR : (0 : ℝ) < Real.sqrt (t : ℝ) := Real.sqrt_pos.mpr (by exact_mod_cast ht0)
      rw [hsR]
      simp only [div_zero, decide_eq_true_iff]
      rw [le_div_iff htR, zero_mul]
      exact ⟨fun h => by exact_mod_cast h, fun h => by exact_mod_cast h⟩
  · have hsne : s ≠ 0 := ne_of_gt hs0
    rw [if_neg hsne]
    have hsR : (0 : ℝ) < Real.sqrt (s : ℝ) := Real.sqrt_pos.mpr (by exact_mod_cast hs0)
    rcases eq_or_lt_of_le ht with ht0 | ht0
    · rw [if_pos ht0.symm]
      have htR : Real.sqrt (t : ℝ) = 0 := by
        rw [← ht0]; simp [Real.sqrt_zero]
      rw [htR]
      simp only [div_zero, decide_eq_true_iff]
      rw [div_le_iff hsR, zero_mul]
      exact ⟨fun h => by exact_mod_cast h, fun h => by exact_mod_cast h⟩
    · have htne : t ≠ 0 := ne_of_gt ht0
      rw [if_neg htne]
      have htR : (0 : ℝ) < Real.sqrt (t : ℝ) := Real.sqrt_pos.mpr (by exact_mod_cast ht0)
      rw [div_le_div_iff hsR htR]
      have hsR0 : (0 : ℝ) ≤ (s : ℚ) := by exact_mod_cast hs
      have htR0 : (0 : ℝ) ≤ (t : ℚ) := by exact_mod_cast ht
      by_cases hx : 0 < x
      · rw [if_pos hx]
        have hxR : (0 : ℝ) < (x : ℚ) := by exact_mod_cast hx
        simp only [decide_eq_true_iff]
        constructor
        · rintro ⟨hy, hsq⟩
          have hyR : (0 : ℝ) ≤ (y : ℚ) := by exact_mod_cast le_of_lt hy
          have hsqR : (x : ℝ) ^ 2 * (t : ℝ) ≤ (y : ℝ) ^ 2 * (s : ℝ) := by
            exact_mod_cast hsq
          have := Real.sqrt_le_sqrt hsqR
          rwa [sqrt_sq_mul _ _ (le_of_lt hxR), sqrt_sq_mul _ _ hyR] at this
        · intro h
          have hleft : (0 : ℝ) < (x : ℝ) * Real.sqrt (t : ℝ) := mul_pos hxR htR
          have hyposR : (0 : ℝ) < (y : ℝ) * Real.sqrt (s : ℝ) := lt_of_lt_of_le hleft h
          have hy : (0 : ℝ) < (y : ℝ) := by
            by_contra hyc
            push_neg at hyc
            have : (y : ℝ) * Real.sqrt (s : ℝ) ≤ 0 :=
              mul_nonpos_of_nonpos_of_nonneg hyc (Real.sqrt_nonneg _)
            linarith
          refine ⟨by exact_mod_cast hy, ?_⟩
          have hsq := mul_self_le_mul_self (le_of_lt hleft) h
          have hexp : (x : ℝ) ^ 2 * (t : ℝ) ≤ (y : ℝ) ^ 2 * (s : ℝ) := by
            have hts : Real.sqrt (t : ℝ) * Real.sqrt (t : ℝ) = (t : ℝ) := by
              exact Real.mul_self_sqrt htR0
            have hss : Real.sqrt (s : ℝ) * Real.sqrt (s : ℝ) = (s : ℝ) := by
              exact Real.mul_self_sqrt hsR0
            nlinarith [hsq, hts, hss]
          exact_mod_cast hexp
      · rw [if_neg hx]
        push_neg at hx
        have hxR : ((x : ℚ) : ℝ) ≤ 0 := by exact_mod_cast hx
        by_cases hy : 0 ≤ y
        · rw [if_pos hy]
          have hyR : (0 : ℝ) ≤ (y : ℚ) := by exact_mod_cast hy
          have h1 : (x : ℝ) * Real.sqrt (t : ℝ) ≤ 0 :=
            mul_nonpos_of_nonpos_of_nonneg hxR (Real.sqrt_nonneg _)
          have h2 : (0 : ℝ) ≤ (y : ℝ) * Real.sqrt (s : ℝ) :=
            mul_nonneg hyR (Real.sqrt_nonneg _)
          simp only [true_iff]
          linarith
        · rw [if_neg hy]
          push_neg at hy
          have hyR : ((y : ℚ) : ℝ) < 0 := by exact_mod_cast hy
          have hnx : (0 : ℝ) ≤ (-(x : ℝ)) := by linarith
          have hny : (0 : ℝ) ≤ (-(y : ℝ)) := by linarith
          simp only [decide_eq_true_iff]
          constructor
          · intro hsq
            have hsqR : (y : ℝ) ^ 2 * (s : ℝ) ≤ (x : ℝ) ^ 2 * (t : ℝ) := by
              exact_mod_cast hsq
            have hsqR2 : (-(y : ℝ)) ^ 2 * (s : ℝ) ≤ (-(x : ℝ)) ^ 2 * (t : ℝ) := by
              simpa [neg_pow] using hsqR
            have := Real.sqrt_le_sqrt hsqR2
            rw [sqrt_sq_mul _ _ hny, sqrt_sq_mul _ _ hnx] at this
            linarith
          · intro h
            have h2 : (-(y : ℝ)) * Real.sqrt (s : ℝ) ≤ (-(x : ℝ)) * Real.sqrt (t : ℝ) := by
              linarith
            have hleft : (0 : ℝ) ≤ (-(y : ℝ)) * Real.sqrt (s : ℝ) :=
              mul_nonneg hny (Real.sqrt_nonneg _)
            have hsq := mul_self_le_mul_self hleft h2
            have hts : Real.sqrt (t : ℝ) * Real.sqrt (t : ℝ) = (t : ℝ) := by
              exact Real.mul_self_sqrt htR0
            have hss : Real.sqrt (s : ℝ) * Real.sqrt (s : ℝ) = (s : ℝ) := by
              exact Real.mul_self_sqrt hsR0
            have hexp : (y : ℝ) ^ 2 * (s : ℝ) ≤ (x : ℝ) ^ 2 * (t : ℝ) := by
              nlinarith [hsq, hts, hss]
            exact_mod_cast hexp

/-! ## Bridging the comparator to the real cosine distance -/

theorem cosineDistLe_iff (qv : List ℚ) (r1 r2 : EmbeddingRow) :
    cosineDistLe qv r1 r2 = true ↔
      cosineDistance qv r1.embedding ≤ cosineDistance qv r2.embedding := by
  have h := divSqrtLe_iff (dot qv r2.embedding) (normSq qv * normSq r2.embedding)
    (dot qv r1.embedding) (normSq qv * normSq r1.embedding)
    (mul_nonneg (normSq_nonneg qv) (normSq_nonneg r2.embedding))
    (mul_nonneg (normSq_nonneg qv) (normSq_nonneg r1.embedding))
  unfold cosineDistLe cosineDistance
  rw [h]
  constructor <;> intro h2 <;> linarith

theorem cosineDistLe_total (qv : List ℚ) (r1 r2 : EmbeddingRow) :
    cosineDistLe qv r1 r2 = true ∨ cosineDistLe qv r2 r1 = true := by
  rcases le_total (cosineDistance qv r1.embedding) (cosineDistance qv r2.embedding) with h | h
  · exact Or.inl ((cosineDistLe_iff qv r1 r2).mpr h)
  · exact Or.inr ((cosineDistLe_iff qv r2 r1).mpr h)

theorem cosineDistLe_trans (qv : List ℚ) (r1 r2 r3 : EmbeddingRow)
    (h1 : cosineDistLe qv r1 r2 = true) (h2 : cosineDistLe qv r2 r3 = true) :
    cosineDistLe qv r1 r3 = true :=
  (cosineDistLe_iff qv r1 r3).mpr
    (le_trans ((cosineDistLe_iff qv r1 r2).mp h1) ((cosineDistLe_iff qv r2 r3).mp h2))

/-- The ordered select really is sorted by (non-strict) cosine distance. -/
theorem pairwise_insertionSort_cosine (qv : List ℚ) (l : List EmbeddingRow) :
    (l.insertionSort (fun r1 r2 => cosineDistLe qv r1 r2 = true)).Pairwise
      (fun r1 r2 => cosineDistLe qv r1 r2 = true) :=
  @List.sorted_insertionSort _ (fun r1 r2 => cosineDistLe qv r1 r2 = true) _
    ⟨fun a b => cosineDistLe_total qv a b⟩
    ⟨fun a b c => cosineDistLe_trans qv a b c⟩ l

/-- Cosine distance of a nonzero vector to itself is exactly 0. -/
theorem cosineDistance_self (v : List ℚ) (h : normSq v ≠ 0) : cosineDistance v v = 0 := by
  have h0 : 0 ≤ normSq v := normSq_nonneg v
  have hR : ((normSq v * normSq v : ℚ) : ℝ) = ((normSq v : ℚ) : ℝ) ^ 2 := by
    push_cast
    ring
  have hd : dot v v = normSq v := rfl
  unfold cosineDistance
  rw [hd, hR, Real.sqrt_sq (by exact_mod_cast h0), div_self (by exact_mod_cast h)]
  ring

/-- Normal form of the search on a nonnegative `k`: the sorted, truncated,
score-mapped row list. -/
theorem search_ok (embed : String → List ℚ) (query : String) (k : Int) (s : Store)
    (hk : 0 ≤ k) :
    custom_similarity_search_with_scores embed query k s =
      .ok (((s.embeddings.insertionSort
            (fun r1 r2 => cosineDistLe (embed query) r1 r2 = true)).take k.toNat).map
        (fun r => (⟨r.document⟩, 1 - cosineDistance (embed query) r.embedding))) := by
  have hk0 : ¬ k < 0 := by omega
  simp only [custom_similarity_search_with_scores, sqlTopK, get_vector, hk0, if_false,
    Except.map]

/-- C5: for every query and every `k ≥ 1`, the search returns `ok` with a
list of `(content, score)` pairs of length at most `k`, ordered by
non-increasing score (equivalently non-decreasing cosine distance); on an
empty store the list is empty, and when `k` is at least the number of stored
rows every row is returned. -/
theorem C5_search_ordered_topk (embed : String → List ℚ) (query : String) (k : Int)
    (s : Store) (hk : 1 ≤ k) :
    ∃ docs : List (Document × ℝ),
      custom_similarity_search_with_scores embed query k s = .ok docs ∧
      (docs.length : Int) ≤ k ∧
      docs.Pairwise (fun a b => b.2 ≤ a.2) ∧
      (s.embeddings = [] → docs = []) ∧
      ((s.embeddings.length : Int) ≤ k → docs.length = s.embeddings.length) := by
  refine ⟨_, search_ok embed query k s (by omega), ?_, ?_, ?_, ?_⟩
  · rw [List.length_map, List.length_take]
    have h2 : (k.toNat : Int) = k := Int.toNat_of_nonneg (by omega)
    have h1 : min k.toNat (s.embeddings.insertionSort
        (fun r1 r2 => cosineDistLe (embed query) r1 r2 = true)).length ≤ k.toNat :=
      min_le_left _ _
    omega
  · rw [List.pairwise_map]
    have hs := pairwise_insertionSort_cosine (embed query) s.embeddings
    have htake := List.Pairwise.sublist (List.take_sublist k.toNat _) hs
    refine htake.imp ?_
    intro a b hab
    have hd := (cosineDistLe_iff (embed query) a b).mp hab
    simp only
    linarith
  · intro h
    simp [h, List.insertionSort]
  · intro hlen
    rw [List.length_map, List.length_take, List.length_insertionSort]
    omega

/-- Witness for C5: the search theorem instantiated at a concrete query,
`k = 1` and the empty store. -/
theorem C5_search_ordered_topk_witness :
    ∃ docs : List (Document × ℝ),
      custom_similarity_search_with_scores (fun _ => [1]) "q" 1 ⟨true, [], [], 0⟩ = .ok docs ∧
      (docs.length : Int) ≤ 1 ∧
      docs.Pairwise (fun a b => b.2 ≤ a.2) ∧
      (([] : List EmbeddingRow) = [] → docs = []) ∧
      ((0 : Int) ≤ 1 → docs.length = 0) :=
  C5_search_ordered_topk (fun _ => [1]) "q" 1 ⟨true, [], [], 0⟩ (by decide)

/-- Counterexample to C6 as stated: at `k = -1` the search does not return an
empty result; the SQL layer rejects the negative `LIMIT` (PostgreSQL:
`LIMIT must not be negative`), surfacing an error. -/
theorem C6_counterexample :
    custom_similarity_search_with_scores (fun _ => [1]) "q" (-1) ⟨true, [], [], 0⟩ =
        .error .negativeLimit ∧
      ∀ docs : List (Document × ℝ),
        custom_similarity_search_with_scores (fun _ => [1]) "q" (-1) ⟨true, [], [], 0⟩ ≠
          .ok docs := by
  have h0 : custom_similarity_search_with_scores (fun _ => ([1] : List ℚ)) "q" (-1)
      ⟨true, [], [], 0⟩ = Except.error SqlError.negativeLimit := rfl
  refine ⟨h0, ?_⟩
  intro docs h
  rw [h0] at h
  exact Except.noConfusion h

/-- C6 (amended): `k = 0` returns the empty sequence without error, for every
store; but for negative `k` the query is rejected by the database
(`LIMIT must not be negative`) and the call raises instead of returning
an empty sequence. -/
theorem C6_k_zero_empty_k_neg_error (embed : String → List ℚ) (query : String) (s : Store) :
    custom_similarity_search_with_scores embed query 0 s = .ok [] ∧
    ∀ k : Int, k < 0 →
      custom_similarity_search_with_scores embed query k s = .error .negativeLimit := by
  constructor
  · rw [search_ok embed query 0 s le_rfl]
    simp
  · intro k hk
    simp only [custom_similarity_search_with_scores, sqlTopK, get_vector, hk, if_true,
      Except.map]

/-- Witness for C6 (amended) at `k = 0` and `k = -2` on a nonempty store. -/
theorem C6_k_zero_empty_k_neg_error_witness :
    custom_similarity_search_with_scores (fun _ => [1]) "w" 0
        ⟨true, [⟨"A", 0⟩], [⟨0, "d", none, [1]⟩], 1⟩ = .ok [] ∧
    custom_similarity_search_with_scores (fun _ => [1]) "w" (-2)
        ⟨true, [⟨"A", 0⟩], [⟨0, "d", none, [1]⟩], 1⟩ = .error .negativeLimit :=
  ⟨(C6_k_zero_empty_k_neg_error (fun _ => [1]) "w"
      ⟨true, [⟨"A", 0⟩], [⟨0, "d", none, [1]⟩], 1⟩).1,
   (C6_k_zero_empty_k_neg_error (fun _ => [1]) "w"
      ⟨true, [⟨"A", 0⟩], [⟨0, "d", none, [1]⟩], 1⟩).2 (-2) (by decide)⟩

/-- C7: when a stored row's vector coincides with the (nonzero) query vector
and every other stored row is at strictly positive cosine distance from the
query, a search with `k ≥ 1` returns that row first with score exactly `1`,
and every returned score is `1` minus the row's cosine distance. -/
theorem C7_exact_match_first (embed : String → List ℚ) (query : String) (k : Int)
    (s : Store) (r : EmbeddingRow)
    (hr : r ∈ s.embeddings) (hv : r.embedding = embed query)
    (hnz : normSq (embed query) ≠ 0) (hk : 1 ≤ k)
    (hbest : ∀ e ∈ s.embeddings, e ≠ r → 0 < cosineDistance (embed query) e.embedding) :
    ∃ docs : List (Document × ℝ),
      custom_similarity_search_with_scores embed query k s = .ok docs ∧
      docs.head? = some (⟨r.document⟩, 1) ∧
      ∀ p ∈ docs, ∃ e ∈ s.embeddings,
        p = (⟨e.document⟩, 1 - cosineDistance (embed query) e.embedding) := by
  have hsearch := search_ok embed query k s (by omega)
  have hdr : cosineDistance (embed query) r.embedding = 0 := by
    rw [hv]
    exact cosineDistance_self (embed query) hnz
  have hperm : (s.embeddings.insertionSort
      (fun r1 r2 => cosineDistLe (embed query) r1 r2 = true)).Perm s.embeddings :=
    List.perm_insertionSort _ _
  have hrs : r ∈ s.embeddings.insertionSort
      (fun r1 r2 => cosineDistLe (embed query) r1 r2 = true) := hperm.mem_iff.mpr hr
  have hpw := pairwise_insertionSort_cosine (embed query) s.embeddings
  rcases hcase : s.embeddings.insertionSort
      (fun r1 r2 => cosineDistLe (embed query) r1 r2 = true) with _ | ⟨hd0, tl0⟩
  · rw [hcase] at hrs
    cases hrs
  · rw [hcase] at hrs hpw
    have hpw1 : ∀ b ∈ tl0, cosineDistLe (embed query) hd0 b = true :=
      (List.pairwise_cons.mp hpw).1
    have hh : hd0 ∈ s.embeddings := by
      refine hperm.mem_iff.mp ?_
      rw [hcase]
      exact List.mem_cons_self hd0 tl0
    have hhr : hd0 = r := by
      by_contra hne
      have hpos := hbest hd0 hh hne
      rcases List.mem_cons.mp hrs with heq | hmem
      · exact hne heq.symm
      · have hle := (cosineDistLe_iff (embed query) hd0 r).mp (hpw1 r hmem)
        rw [hdr] at hle
        linarith
    obtain ⟨n, hn⟩ : ∃ n, k.toNat = n + 1 := ⟨k.toNat - 1, by omega⟩
    refine ⟨_, hsearch, ?_, ?_⟩
    · rw [hcase, hn, List.take_succ_cons, List.map_cons, List.head?_cons, hhr, hdr]
      norm_num
    · intro p hp
      rw [hcase] at hp
      obtain ⟨e, he, hpe⟩ := List.mem_map.mp hp
      refine ⟨e, ?_, hpe.symm⟩
      refine hperm.mem_iff.mp ?_
      rw [hcase]
      exact List.mem_of_mem_take he

/-- Witness for C7: a two-row store (the spec's stub provider scenario);
querying with the vector of the stored chunk returns it first with score 1. -/
theorem C7_exact_match_first_witness :
    ∃ docs : List (Document × ℝ),
      custom_similarity_search_with_scores
          (fun t => if t == "red fox" then ([1, 0] : List ℚ) else [0, 1]) "red fox" 2
          ⟨true, [⟨"A", 0⟩],
            [⟨0, "red fox", none, [1, 0]⟩, ⟨0, "blue sky", none, [0, 1]⟩], 1⟩ =
        .ok docs ∧
      docs.head? = some (⟨"red fox"⟩, 1) ∧
      ∀ p ∈ docs,
        ∃ e ∈ [(⟨0, "red fox", none, [1, 0]⟩ : EmbeddingRow), ⟨0, "blue sky", none, [0, 1]⟩],
          p = (⟨e.document⟩, 1 - cosineDistance
            ((fun t => if t == "red fox" then ([1, 0] : List ℚ) else [0, 1]) "red fox")
            e.embedding) := by
  refine C7_exact_match_first _ "red fox" 2 _ ⟨0, "red fox", none, [1, 0]⟩
    (List.mem_cons_self _ _) (by simp) ?_ (by decide) ?_
  · show normSq [1, 0] ≠ 0
    norm_num [normSq, dot]
  intro e he hne
  simp only [List.mem_cons, List.not_mem_nil, or_false] at he
  rcases he with he | he
  · exact absurd he hne
  · subst he
    show (0 : ℝ) < cosineDistance [1, 0] [0, 1]
    unfold cosineDistance
    norm_num [dot, normSq, Real.sqrt_one]

/-! ## Facts about the collection-management operations -/

theorem getOrCreate_tablesExist (n : String) (s : Store) :
    (getOrCreateCollection n s).1.tablesExist = s.tablesExist := by
  unfold getOrCreateCollection
  cases hf : s.collections.find? (fun c => c.name == n) <;> simp

theorem mem_getOrCreate (n : String) (s : Store) :
    n ∈ (getOrCreateCollection n s).1.collections.map (fun c => c.name) := by
  unfold getOrCreateCollection
  cases hf : s.collections.find? (fun c => c.name == n) with
  | none => simp
  | some c =>
      have hc : c.name = n := by simpa using List.find?_some hf
      exact List.mem_map.mpr ⟨c, List.mem_of_find?_eq_some hf, hc⟩

theorem delete_tablesExist (n : String) (s : Store) :
    (deleteCollectionByName n s).tablesExist = s.tablesExist := by
  unfold deleteCollectionByName
  cases hf : s.collections.find? (fun c => c.name == n) <;> simp

theorem addEmbeddings_tablesExist (embed : String → List ℚ) (docs : List Document)
    (u : Nat) (s : Store) : (addEmbeddings embed docs u s).tablesExist = s.tablesExist := rfl

theorem addEmbeddings_collections (embed : String → List ℚ) (docs : List Document)
    (u : Nat) (s : Store) : (addEmbeddings embed docs u s).collections = s.collections := rfl

theorem pgvectorSetup_tablesExist (n : String) (pd : Bool) (s : Store) :
    (pgvectorSetup n pd s).1.tablesExist = true := by
  unfold pgvectorSetup
  rw [getOrCreate_tablesExist]
  cases pd <;> simp [delete_tablesExist]

theorem pgvectorSetup_mem (n : String) (pd : Bool) (s : Store) :
    n ∈ (pgvectorSetup n pd s).1.collections.map (fun c => c.name) := by
  unfold pgvectorSetup
  exact mem_getOrCreate n _

theorem get_collections_eq (s : Store) (h : s.tablesExist = true) :
    get_collections s = s.collections.map (fun c => c.name) := by
  unfold get_collections selectCollections
  rw [if_pos h]

theorem get_collections_empty (s : Store) (h : s.tablesExist = false) :
    get_collections s = [] := by
  unfold get_collections selectCollections
  rw [if_neg (by simp [h])]

theorem mem_get_collections (s : Store) (hwf : WF s) (n : String) :
    n ∈ get_collections s ↔ n ∈ s.collections.map (fun c => c.name) := by
  cases htb : s.tablesExist with
  | true => rw [get_collections_eq s htb]
  | false =>
      rw [get_collections_empty s htb, (hwf.2.2.2.2 htb).1]
      simp

theorem tablesExist_of_find?_some {n : String} {s : Store} {c : CollectionRow} (hwf : WF s)
    (hf : s.collections.find? (fun x => x.name == n) = some c) : s.tablesExist = true := by
  cases htb : s.tablesExist with
  | true => rfl
  | false =>
      rw [(hwf.2.2.2.2 htb).1] at hf
      simp [List.find?] at hf

theorem contains_get_collections_eq_false {n : String} {s : Store}
    (hf : s.collections.find? (fun x => x.name == n) = none) :
    (get_collections s).contains n = false := by
  have hnot : n ∉ get_collections s := by
    cases htb : s.tablesExist with
    | false =>
        rw [get_collections_empty s htb]
        simp
    | true =>
        rw [get_collections_eq s htb]
        intro hmem
        obtain ⟨a, ha, hname⟩ := List.mem_map.mp hmem
        have hnone := List.find?_eq_none.mp hf a ha
        rw [hname] at hnone
        simp at hnone
  cases hb : (get_collections s).contains n with
  | false => rfl
  | true => exact absurd (List.mem_of_elem_eq_true hb) hnot

theorem contains_get_collections_eq_true {n : String} {s : Store} {c : CollectionRow}
    (hwf : WF s) (hf : s.collections.find? (fun x => x.name == n) = some c) :
    (get_collections s).contains n = true := by
  have htb := tablesExist_of_find?_some hwf hf
  rw [get_collections_eq s htb]
  have hc : c.name = n := by simpa using List.find?_some hf
  exact List.elem_eq_true_of_mem
    (List.mem_map.mpr ⟨c, List.mem_of_find?_eq_some hf, hc⟩)

theorem filter_find?_none (n : String) (s : Store) (c : CollectionRow) (hwf : WF s)
    (hf : s.collections.find? (fun x => x.name == n) = some c) :
    (s.collections.filter (fun c2 => c2.uuid != c.uuid)).find?
      (fun x => x.name == n) = none := by
  rw [List.find?_eq_none]
  intro a ha hbeq
  rw [List.mem_filter] at ha
  have haname : a.name = n := by simpa using hbeq
  have hcname : c.name = n := by simpa using List.find?_some hf
  have hac : a = c :=
    List.inj_on_of_nodup_map hwf.1 ha.1 (List.mem_of_find?_eq_some hf)
      (by rw [haname, hcname])
  rw [hac] at ha
  simp at ha

/-- Characterisation of `update_collection` on a fresh name (no registry row
matches): tables are created, a registry row with a fresh uuid is appended,
and one embedding row per document is appended. -/
theorem update_fresh_spec (embed : String → List ℚ) (docs : List Document) (n : String)
    (s : Store) (hf : s.collections.find? (fun x => x.name == n) = none) :
    update_collection embed (some docs) n s =
      { tablesExist := true,
        collections := s.collections ++ [⟨n, s.nextUuid⟩],
        embeddings := s.embeddings ++
          docs.map (fun d => ⟨s.nextUuid, d.page_content, none, embed d.page_content⟩),
        nextUuid := s.nextUuid + 1 } := by
  have hcont := contains_get_collections_eq_false hf
  simp only [update_collection, update_pgvector_collection, fromDocuments, pgvectorSetup,
    addEmbeddings, getOrCreateCollection, deleteCollectionByName, hcont,
    Bool.false_eq_true, if_false, hf]

/-- Characterisation of `update_collection` on an already-registered name:
the registry row and its embedding rows are deleted, a new registry row with
a fresh uuid is appended, and one embedding row per document is appended. -/
theorem update_existing_spec (embed : String → List ℚ) (docs : List Document) (n : String)
    (s : Store) (c : CollectionRow) (hwf : WF s)
    (hf : s.collections.find? (fun x => x.name == n) = some c) :
    update_collection embed (some docs) n s =
      { tablesExist := true,
        collections := s.collections.filter (fun c2 => c2.uuid != c.uuid) ++ [⟨n, s.nextUuid⟩],
        embeddings := s.embeddings.filter (fun e => e.collection_id != c.uuid) ++
          docs.map (fun d => ⟨s.nextUuid, d.page_content, none, embed d.page_content⟩),
        nextUuid := s.nextUuid + 1 } := by
  have hcont := contains_get_collections_eq_true hwf hf
  have hfn := filter_find?_none n s c hwf hf
  simp only [update_collection, update_pgvector_collection, fromDocuments, pgvectorSetup,
    addEmbeddings, getOrCreateCollection, deleteCollectionByName, hcont, if_true, hf, hfn]

/-- Characterisation of `delete_collection` on a registered name: the matched
registry row is removed and its embedding rows are cascade-deleted. -/
theorem delete_existing_spec (n : String) (s : Store) (c : CollectionRow)
    (hf : s.collections.find? (fun x => x.name == n) = some c) :
    delete_collection n s =
      { s with
          tablesExist := true
          collections := s.collections.filter (fun c2 => c2.uuid != c.uuid)
          embeddings := s.embeddings.filter (fun e => e.collection_id != c.uuid) } := by
  simp only [delete_collection, pgvectorSetup, getOrCreateCollection, deleteCollectionByName,
    Bool.false_eq_true, if_false, hf]

/-- Characterisation of `delete_collection` on a missing name: the library
constructor get-or-creates the registry row (consuming a fresh uuid) and then
deletes it again, leaving registry and embeddings as before. -/
theorem delete_missing_spec (n : String) (s : Store) (hwf : WF s)
    (hf : s.collections.find? (fun x => x.name == n) = none) :
    delete_collection n s =
      { s with
          tablesExist := true
          nextUuid := s.nextUuid + 1 } := by
  have hfind2 : ((s.collections ++ [(⟨n, s.nextUuid⟩ : CollectionRow)]).find?
      (fun x => x.name == n)) = some ⟨n, s.nextUuid⟩ := by
    rw [List.find?_append, hf, Option.none_or]
    simp [List.find?]
  have hcolfilter : (s.collections ++ [(⟨n, s.nextUuid⟩ : CollectionRow)]).filter
      (fun c2 => c2.uuid != s.nextUuid) = s.collections := by
    rw [List.filter_append]
    have h1 : s.collections.filter (fun c2 => c2.uuid != s.nextUuid) = s.collections :=
      List.filter_eq_self.mpr (fun a ha => bne_iff_ne.mpr (Nat.ne_of_lt (hwf.2.2.1 a ha)))
    have h2 : [(⟨n, s.nextUuid⟩ : CollectionRow)].filter
        (fun c2 => c2.uuid != s.nextUuid) = [] := by simp
    rw [h1, h2, List.append_nil]
  have hembfilter : s.embeddings.filter (fun e => e.collection_id != s.nextUuid) =
      s.embeddings := by
    refine List.filter_eq_self.mpr (fun e he => ?_)
    obtain ⟨c2, hc2, hid⟩ := hwf.2.2.2.1 e he
    refine bne_iff_ne.mpr ?_
    rw [hid]
    exact Nat.ne_of_lt (hwf.2.2.1 c2 hc2)
  simp only [delete_collection, pgvectorSetup, getOrCreateCollection, deleteCollectionByName,
    Bool.false_eq_true, if_false, hf, hfind2, hcolfilter, hembfilter]

/-- C1: updating an existing collection with a non-empty document list fully
replaces it: afterwards the rows visible to a search restricted to that
collection are exactly the new documents, in input order, with their
embeddings; nothing of the previous contents remains. -/
theorem C1_update_replaces (embed : String → List ℚ) (docs : List Document) (n : String)
    (s : Store) (hwf : WF s) (hmem : n ∈ get_collections s) (hne : docs ≠ []) :
    (rowsOfCollection n (update_collection embed (some docs) n s)).map
      (fun e => (e.document, e.embedding)) =
    docs.map (fun d => (d.page_content, embed d.page_content)) := by
  have hmem2 : n ∈ s.collections.map (fun x => x.name) := (mem_get_collections s hwf n).mp hmem
  obtain ⟨a, ha, haname⟩ := List.mem_map.mp hmem2
  have hsome : (s.collections.find? (fun x => x.name == n)).isSome := by
    rw [List.find?_isSome]
    exact ⟨a, ha, by simp [haname]⟩
  obtain ⟨c, hf⟩ := Option.isSome_iff_exists.mp hsome
  rw [update_existing_spec embed docs n s c hwf hf]
  have hfn := filter_find?_none n s c hwf hf
  have hfind : ((s.collections.filter (fun c2 => c2.uuid != c.uuid)) ++
      [(⟨n, s.nextUuid⟩ : CollectionRow)]).find? (fun x => x.name == n) =
      some ⟨n, s.nextUuid⟩ := by
    rw [List.find?_append, hfn, Option.none_or]
    simp [List.find?]
  unfold rowsOfCollection
  simp only [hfind]
  rw [List.filter_append]
  have h1 : (s.embeddings.filter (fun e => e.collection_id != c.uuid)).filter
      (fun e => e.collection_id == s.nextUuid) = [] := by
    rw [List.filter_eq_nil_iff]
    intro e he
    have hemem : e ∈ s.embeddings := (List.mem_filter.mp he).1
    obtain ⟨c2, hc2, hid⟩ := hwf.2.2.2.1 e hemem
    have hlt := hwf.2.2.1 c2 hc2
    simp only [beq_iff_eq]
    omega
  have h2 : (docs.map
        (fun d => (⟨s.nextUuid, d.page_content, none, embed d.page_content⟩ : EmbeddingRow))).filter
      (fun e => e.collection_id == s.nextUuid) =
      docs.map (fun d => ⟨s.nextUuid, d.page_content, none, embed d.page_content⟩) := by
    rw [List.filter_eq_self]
    intro e he
    obtain ⟨d, hd, rfl⟩ := List.mem_map.mp he
    simp
  rw [h1, h2, List.nil_append, List.map_map]
  rfl

/-- Witness for C1: replacing the one-chunk collection `A` with two new
chunks leaves exactly the two new chunks visible. -/
theorem C1_update_replaces_witness :
    (rowsOfCollection "A" (update_collection (fun _ => [1]) (some [⟨"x"⟩, ⟨"y"⟩]) "A"
        ⟨true, [⟨"A", 0⟩], [⟨0, "old", none, [1]⟩], 1⟩)).map
      (fun e => (e.document, e.embedding)) =
    [⟨"x"⟩, (⟨"y"⟩ : Document)].map
      (fun d => (d.page_content, (fun _ => ([1] : List ℚ)) d.page_content)) :=
  C1_update_replaces (fun _ => [1]) [⟨"x"⟩, ⟨"y"⟩] "A"
    ⟨true, [⟨"A", 0⟩], [⟨0, "old", none, [1]⟩], 1⟩ (by decide) (by decide) (by decide)

/-- C2: `get_collections` returns exactly the registered collection names:
membership in its result coincides with membership in the registry table's
`name` column. -/
theorem C2_get_collections_registered (s : Store) (hwf : WF s) (n : String) :
    n ∈ get_collections s ↔ n ∈ s.collections.map (fun c => c.name) :=
  mem_get_collections s hwf n

/-- Witness for C2 on a two-collection registry. -/
theorem C2_get_collections_registered_witness :
    ("A" ∈ get_collections ⟨true, [⟨"A", 0⟩, ⟨"B", 1⟩], [], 2⟩ ↔
      "A" ∈ ([⟨"A", 0⟩, ⟨"B", 1⟩] : List CollectionRow).map (fun c => c.name)) :=
  C2_get_collections_registered ⟨true, [⟨"A", 0⟩, ⟨"B", 1⟩], [], 2⟩ (by decide) "A"

/-- C3: after `update_collection` with a non-empty document list, the name is
registered: it appears in `get_collections`. -/
theorem C3_update_registers (embed : String → List ℚ) (docs : List Document) (n : String)
    (s : Store) (hne : docs ≠ []) :
    n ∈ get_collections (update_collection embed (some docs) n s) := by
  have heq : update_collection embed (some docs) n s =
      addEmbeddings embed docs (pgvectorSetup n ((get_collections s).contains n) s).2
        (pgvectorSetup n ((get_collections s).contains n) s).1 := rfl
  rw [heq, get_collections_eq _ (by rw [addEmbeddings_tablesExist, pgvectorSetup_tablesExist]),
    addEmbeddings_collections]
  exact pgvectorSetup_mem n _ s

/-- Witness for C3: storing one chunk under `B` in an empty store registers
`B`. -/
theorem C3_update_registers_witness :
    "B" ∈ get_collections (update_collection (fun _ => [1]) (some [⟨"x"⟩]) "B"
      ⟨false, [], [], 0⟩) :=
  C3_update_registers (fun _ => [1]) [⟨"x"⟩] "B" ⟨false, [], [], 0⟩ (by decide)

/-- Counterexample to C4 as stated: on an empty store,
`update_collection("A", [])` is not a no-op — the library constructor
get-or-creates the registry row even with zero documents, so a registry row
is created and `get_collections` changes from `[]` to `["A"]`. -/
theorem C4_counterexample :
    get_collections (update_collection (fun _ => []) (some []) "A" ⟨false, [], [], 0⟩) =
        ["A"] ∧
      get_collections ⟨false, [], [], 0⟩ = [] := by
  constructor <;> rfl

/-- C4 (amended): `update_collection` with an empty document list writes no
embedding rows, but it does touch the registry: afterwards the registered
names are exactly the previous ones together with the given name, and the
named collection holds no rows (its previous rows are deleted when the name
pre-existed); no error is raised. -/
theorem C4_empty_docs_registers_empty_collection (embed : String → List ℚ) (n : String)
    (s : Store) (hwf : WF s) :
    (∀ m, m ∈ get_collections (update_collection embed (some []) n s) ↔
      (m ∈ get_collections s ∨ m = n)) ∧
    rowsOfCollection n (update_collection embed (some []) n s) = [] ∧
    ∀ e ∈ (update_collection embed (some []) n s).embeddings, e ∈ s.embeddings := by
  cases hf : s.collections.find? (fun x => x.name == n) with
  | none =>
      rw [update_fresh_spec embed [] n s hf]
      refine ⟨?_, ?_, ?_⟩
      · intro m
        rw [get_collections_eq _ rfl, mem_get_collections s hwf m]
        simp [List.map_append]
      · unfold rowsOfCollection
        have hfind : ((s.collections ++ [(⟨n, s.nextUuid⟩ : CollectionRow)]).find?
            (fun x => x.name == n)) = some ⟨n, s.nextUuid⟩ := by
          rw [List.find?_append, hf, Option.none_or]
          simp [List.find?]
        simp only [hfind]
        rw [List.filter_eq_nil_iff]
        intro e he
        simp only [List.map_nil, List.append_nil] at he
        obtain ⟨c2, hc2, hid⟩ := hwf.2.2.2.1 e he
        have hlt := hwf.2.2.1 c2 hc2
        simp only [beq_iff_eq]
        omega
      · intro e he
        simpa using he
  | some c =>
      rw [update_existing_spec embed [] n s c hwf hf]
      have hcname : c.name = n := by simpa using List.find?_some hf
      refine ⟨?_, ?_, ?_⟩
      · intro m
        rw [get_collections_eq _ rfl, mem_get_collections s hwf m]
        constructor
        · intro hm
          rw [List.map_append, List.mem_append] at hm
          rcases hm with hm | hm
          · left
            obtain ⟨a, ha, haname⟩ := List.mem_map.mp hm
            exact List.mem_map.mpr ⟨a, (List.mem_filter.mp ha).1, haname⟩
          · right
            simpa using hm
        · intro hm
          rw [List.map_append, List.mem_append]
          rcases hm with hm | hm
          · obtain ⟨a, ha, haname⟩ := List.mem_map.mp hm
            by_cases hau : a.uuid = c.uuid
            · have hac : a = c :=
                List.inj_on_of_nodup_map hwf.2.1 ha (List.mem_of_find?_eq_some hf) hau
              right
              rw [← haname, hac, hcname]
              simp
            · left
              exact List.mem_map.mpr
                ⟨a, List.mem_filter.mpr ⟨ha, bne_iff_ne.mpr hau⟩, haname⟩
          · right
            simp [hm]
      · unfold rowsOfCollection
        have hfn := filter_find?_none n s c hwf hf
        have hfind : ((s.collections.filter (fun c2 => c2.uuid != c.uuid)) ++
            [(⟨n, s.nextUuid⟩ : CollectionRow)]).find? (fun x => x.name == n) =
            some ⟨n, s.nextUuid⟩ := by
          rw [List.find?_append, hfn, Option.none_or]
          simp [List.find?]
        simp only [hfind]
        rw [List.filter_eq_nil_iff]
        intro e he
        simp only [List.map_nil, List.append_nil] at he
        have hemem : e ∈ s.embeddings := (List.mem_filter.mp he).1
        obtain ⟨c2, hc2, hid⟩ := hwf.2.2.2.1 e hemem
        have hlt := hwf.2.2.1 c2 hc2
        simp only [beq_iff_eq]
        omega
      · intro e he
        simp only [List.map_nil, List.append_nil] at he
        exact (List.mem_filter.mp he).1

/-- Witness for C4 (amended) on a store with a registered collection `A`
holding one row: updating `A` with no documents leaves `A` registered and
empty, with no new rows. -/
theorem C4_empty_docs_registers_empty_collection_witness :
    (∀ m, m ∈ get_collections (update_collection (fun _ => [1]) (some []) "A"
        ⟨true, [⟨"A", 0⟩], [⟨0, "old", none, [1]⟩], 1⟩) ↔
      (m ∈ get_collections ⟨true, [⟨"A", 0⟩], [⟨0, "old", none, [1]⟩], 1⟩ ∨ m = "A")) ∧
    rowsOfCollection "A" (update_collection (fun _ => [1]) (some []) "A"
        ⟨true, [⟨"A", 0⟩], [⟨0, "old", none, [1]⟩], 1⟩) = [] ∧
    ∀ e ∈ (update_collection (fun _ => [1]) (some []) "A"
        ⟨true, [⟨"A", 0⟩], [⟨0, "old", none, [1]⟩], 1⟩).embeddings,
      e ∈ ([⟨0, "old", none, [1]⟩] : List EmbeddingRow) :=
  C4_empty_docs_registers_empty_collection (fun _ => [1]) "A"
    ⟨true, [⟨"A", 0⟩], [⟨0, "old", none, [1]⟩], 1⟩ (by decide)

theorem WF_delete (n : String) (s : Store) (hwf : WF s) : WF (delete_collection n s) := by
  obtain ⟨h1, h2, h3, h4, h5⟩ := hwf
  cases hf : s.collections.find? (fun x => x.name == n) with
  | none =>
      rw [delete_missing_spec n s ⟨h1, h2, h3, h4, h5⟩ hf]
      exact ⟨h1, h2, fun c2 hc2 => Nat.lt_succ_of_lt (h3 c2 hc2), h4, by simp⟩
  | some c =>
      rw [delete_existing_spec n s c hf]
      refine ⟨?_, ?_, ?_, ?_, by simp⟩
      · exact List.Nodup.sublist (List.Sublist.map _ (List.filter_sublist _)) h1
      · exact List.Nodup.sublist (List.Sublist.map _ (List.filter_sublist _)) h2
      · intro c2 hc2
        exact h3 c2 (List.mem_filter.mp hc2).1
      · intro e he
        have he2 := List.mem_filter.mp he
        obtain ⟨c2, hc2, hid⟩ := h4 e he2.1
        refine ⟨c2, List.mem_filter.mpr ⟨hc2, ?_⟩, hid⟩
        refine bne_iff_ne.mpr ?_
        intro hcc
        have hbne := he2.2
        rw [bne_iff_ne] at hbne
        exact hbne (by rw [hid, hcc])

theorem delete_collection_tablesExist (n : String) (s : Store) :
    (delete_collection n s).tablesExist = true := by
  unfold delete_collection
  rw [delete_tablesExist, pgvectorSetup_tablesExist]

theorem not_mem_get_collections_delete (n : String) (s : Store) (hwf : WF s) :
    n ∉ get_collections (delete_collection n s) := by
  rw [get_collections_eq _ (delete_collection_tablesExist n s)]
  cases hf : s.collections.find? (fun x => x.name == n) with
  | none =>
      rw [delete_missing_spec n s hwf hf]
      intro hmem
      obtain ⟨a, ha, haname⟩ := List.mem_map.mp hmem
      have hnone := List.find?_eq_none.mp hf a ha
      rw [haname] at hnone
      simp at hnone
  | some c =>
      rw [delete_existing_spec n s c hf]
      intro hmem
      obtain ⟨a, ha, haname⟩ := List.mem_map.mp hmem
      have hcname : c.name = n := by simpa using List.find?_some hf
      have ha2 := List.mem_filter.mp ha
      have hac : a = c :=
        List.inj_on_of_nodup_map hwf.1 ha2.1 (List.mem_of_find?_eq_some hf)
          (by rw [haname, hcname])
      have hbne := ha2.2
      rw [hac] at hbne
      simp at hbne

theorem delete_missing_frame (n : String) (s : Store) (hwf : WF s)
    (hnot : n ∉ s.collections.map (fun x => x.name)) :
    (delete_collection n s).collections = s.collections ∧
    (delete_collection n s).embeddings = s.embeddings := by
  have hf : s.collections.find? (fun x => x.name == n) = none := by
    rw [List.find?_eq_none]
    intro a ha hbeq
    exact hnot (List.mem_map.mpr ⟨a, ha, by simpa using hbeq⟩)
  rw [delete_missing_spec n s hwf hf]
  exact ⟨rfl, rfl⟩

/-- C8: `delete_collection` is idempotent: afterwards the name is not
registered; deleting a name that is not registered leaves registry and
embedding rows unchanged (it succeeds silently); and a second delete of the
same name changes nothing further. -/
theorem C8_delete_idempotent (n : String) (s : Store) (hwf : WF s) :
    n ∉ get_collections (delete_collection n s) ∧
    (n ∉ s.collections.map (fun c => c.name) →
      (delete_collection n s).collections = s.collections ∧
      (delete_collection n s).embeddings = s.embeddings) ∧
    (delete_collection n (delete_collection n s)).collections =
      (delete_collection n s).collections ∧
    (delete_collection n (delete_collection n s)).embeddings =
      (delete_collection n s).embeddings := by
  have hwf2 := WF_delete n s hwf
  have hnot2 : n ∉ (delete_collection n s).collections.map (fun c => c.name) := by
    have h1 := not_mem_get_collections_delete n s hwf
    rw [get_collections_eq _ (delete_collection_tablesExist n s)] at h1
    exact h1
  exact ⟨not_mem_get_collections_delete n s hwf,
    fun h => delete_missing_frame n s hwf h,
    (delete_missing_frame n _ hwf2 hnot2).1,
    (delete_missing_frame n _ hwf2 hnot2).2⟩

/-- Witness for C8: deleting `B` on a store registering only `B`, with the
double-delete frame conditions spelled out. -/
theorem C8_delete_idempotent_witness :
    "B" ∉ get_collections (delete_collection "B" ⟨true, [⟨"B", 0⟩], [⟨0, "d", none, [1]⟩], 1⟩) ∧
    ("B" ∉ ([⟨"B", 0⟩] : List CollectionRow).map (fun c => c.name) →
      (delete_collection "B" ⟨true, [⟨"B", 0⟩], [⟨0, "d", none, [1]⟩], 1⟩).collections =
        [⟨"B", 0⟩] ∧
      (delete_collection "B" ⟨true, [⟨"B", 0⟩], [⟨0, "d", none, [1]⟩], 1⟩).embeddings =
        [⟨0, "d", none, [1]⟩]) ∧
    (delete_collection "B"
        (delete_collection "B" ⟨true, [⟨"B", 0⟩], [⟨0, "d", none, [1]⟩], 1⟩)).collections =
      (delete_collection "B" ⟨true, [⟨"B", 0⟩], [⟨0, "d", none, [1]⟩], 1⟩).collections ∧
    (delete_collection "B"
        (delete_collection "B" ⟨true, [⟨"B", 0⟩], [⟨0, "d", none, [1]⟩], 1⟩)).embeddings =
      (delete_collection "B" ⟨true, [⟨"B", 0⟩], [⟨0, "d", none, [1]⟩], 1⟩).embeddings :=
  C8_delete_idempotent "B" ⟨true, [⟨"B", 0⟩], [⟨0, "d", none, [1]⟩], 1⟩ (by decide)

/-- C9: `get_collections` never propagates a database error: when the registry
table is absent the underlying `SELECT` fails with an error but the bare
`except` degrades the result to the empty list; when the table is readable
the registered names are returned. -/
theorem C9_get_collections_fails_open (s : Store) :
    (s.tablesExist = false →
      selectCollections s = .error .undefinedTable ∧ get_collections s = []) ∧
    (s.tablesExist = true → get_collections s = s.collections.map (fun c => c.name)) := by
  constructor
  · intro h
    have hsel : selectCollections s = .error .undefinedTable := by
      unfold selectCollections
      rw [if_neg (by simp [h])]
    refine ⟨hsel, ?_⟩
    unfold get_collections
    rw [hsel]
  · intro h
    exact get_collections_eq s h

/-- Witness for C9 on a store whose tables were never created. -/
theorem C9_get_collections_fails_open_witness :
    selectCollections ⟨false, [], [], 0⟩ = .error .undefinedTable ∧
    get_collections ⟨false, [], [], 0⟩ = [] :=
  (C9_get_collections_fails_open ⟨false, [], [], 0⟩).1 rfl

/-- C10: `update_collection` with `docs = None` is a silent no-op: the store
is returned unchanged for every name and state, and the result cannot depend
on the embedding provider. -/
theorem C10_none_noop (n : String) (s : Store) :
    (∀ embed : String → List ℚ, update_collection embed none n s = s) ∧
    (∀ embed1 embed2 : String → List ℚ,
      update_collection embed1 none n s = update_collection embed2 none n s) :=
  ⟨fun _ => rfl, fun _ _ => rfl⟩
